import Mathlib

/-!
Verification of the ferri ingestion pipeline (Go sources under `ferri/`).

The Go code is shallowly embedded: pure string logic becomes Lean functions
on `String` / `List Char`; the SQLite store becomes an explicit `DB` record
of row lists with surrogate-id counters; fallible store operations return
`Except String`; store-level failures (including unique-constraint
violations at insert, and per-line query/insert errors) are injected
through explicit fault parameters, since the embedding itself is total.
Timestamps (`time.Now()`) are an abstract `Nat` parameter `now`.
-/

namespace Ferri

/-! ## String helpers (models of Go `strings` functions) -/

/-- Model of `strings.HasPrefix` at the character-list level. -/
def startsWithL : List Char → List Char → Bool
  | [], _ => true
  | _ :: _, [] => false
  | p :: ps, c :: cs => p == c && startsWithL ps cs

/-- Model of `strings.Contains` (substring occurrence) at the list level. -/
def occursInL (needle : List Char) : List Char → Bool
  | [] => needle.isEmpty
  | c :: cs => startsWithL needle (c :: cs) || occursInL needle cs

/-- Model of `strings.TrimPrefix`: remove `p` from the front of `l` if present. -/
def trimPreL (p l : List Char) : List Char :=
  if startsWithL p l then l.drop p.length else l

/-- String-level wrapper for `strings.TrimPrefix`. -/
def trimPreS (s p : String) : String := ⟨trimPreL p.data s.data⟩

/-- Case-insensitive ASCII match of one pattern character (pattern given in
lowercase), modelling Go's `(?i)` regexp flag on ASCII letters. -/
def isCharCI (pat c : Char) : Bool :=
  c == pat || (('a' ≤ pat && pat ≤ 'z') && c.toNat == pat.toNat - 32)

/-- Case-insensitive `HasPrefix` against a lowercase ASCII pattern. -/
def startsWithCI : List Char → List Char → Bool
  | [], _ => true
  | _ :: _, [] => false
  | p :: ps, c :: cs => isCharCI p c && startsWithCI ps cs

/-! ## Target classifier

`GetOrCreateTarget` (processors/target_processor.go) opens with a `switch`
that classifies the raw line; `classifyTarget` is that switch verbatim. -/

/-- The classification switch of `GetOrCreateTarget`
(processors/target_processor.go lines 13–25). -/
def classifyTarget (targetURL : String) : String :=
  if targetURL.data.count '.' == 1 && !occursInL ['/'] targetURL.data
      && !occursInL [':'] targetURL.data then "domain"
  else if targetURL.data.count '.' > 1 && !occursInL ['/'] targetURL.data
      && !occursInL [':'] targetURL.data then "subdomain"
  else if occursInL [':', '/', '/'] targetURL.data then "url"
  else if occursInL [':'] targetURL.data then "ip_port"
  else "unknown"

/-- Spec-side restatement of the classifier (spec §4.2, five ordered rules,
first match wins), written with propositional conditions for comparison
with `classifyTarget`. -/
def classifyTargetSpec (raw : String) : String :=
  if raw.data.count '.' = 1 ∧ '/' ∉ raw.data ∧ ':' ∉ raw.data then "domain"
  else if 1 < raw.data.count '.' ∧ '/' ∉ raw.data ∧ ':' ∉ raw.data then "subdomain"
  else if occursInL [':', '/', '/'] raw.data = true then "url"
  else if ':' ∈ raw.data then "ip_port"
  else "unknown"

/-! ## Identity extractor

`ExtractDomain` (processors/target_processor.go lines 65–89) and the
first-line domain extraction in main.go (lines 78–88). -/

def notSlash (c : Char) : Bool := !(c == '/')

/-- The scheme alternatives of `(?i)https?://` matched at the head of `l`
(greedy: the `s` of `https?` is tried first); returns the text after the
scheme when one matches. -/
def schemeSplitL (l : List Char) : Option (List Char) :=
  if startsWithCI "https://".data l then some (l.drop 8)
  else if startsWithCI "http://".data l then some (l.drop 7)
  else none

/-- Group 2 of the anchored regexp `(?i)^(https?://)?([^/]+)`
(processors/target_processor.go line 67): the bare host, or `none` when the
regexp fails to match (then `ExtractDomain` returns its input unchanged).
When the scheme matches but is followed by `/` or end of input, the engine
backtracks to leave the optional group unused, so group 2 restarts at the
head of the input (which then begins with a non-`/` character). -/
def goHostMatch (input : String) : Option String :=
  match schemeSplitL input.data with
  | some rest =>
      let seg := rest.takeWhile notSlash
      if seg.isEmpty then some ⟨input.data.takeWhile notSlash⟩ else some ⟨seg⟩
  | none =>
      let seg := input.data.takeWhile notSlash
      if seg.isEmpty then none else some ⟨seg⟩

/-- The sequential `strings.TrimPrefix` chain of `ExtractDomain`
(processors/target_processor.go lines 76–80): `www.` first, then `api.`,
`app.`, `dev.`, `test.`, each applied to the previous result. -/
def stripSubsL (l : List Char) : List Char :=
  trimPreL "test.".data (trimPreL "dev.".data (trimPreL "app.".data
    (trimPreL "api.".data (trimPreL "www.".data l))))

/-- `strings.Split(domain, ".")` for the one-character separator `"."`. -/
def splitOnDotL : List Char → List (List Char)
  | [] => [[]]
  | c :: t =>
    if c == '.' then [] :: splitOnDotL t
    else
      match splitOnDotL t with
      | [] => [[c]]
      | p :: ps => (c :: p) :: ps

/-- `ExtractDomain` (processors/target_processor.go lines 65–89; the same
code appears as `extractDomain` in ferri.go): regexp host extraction, the
prefix-strip chain, then the dot-split that returns the first label when
at least two labels remain. -/
def extractDomain (input : String) : String :=
  match goHostMatch input with
  | none => input
  | some host =>
    let d := stripSubsL host.data
    match splitOnDotL d with
    | p :: _ :: _ => ⟨p⟩
    | _ => ⟨d⟩

/-- Leftmost match of the unanchored regexp `(?i)https?://([^/]+)`
(main.go lines 81–84): scan for a scheme followed by at least one non-`/`
character and capture up to the next `/`. -/
def findSchemeHost : List Char → Option (List Char)
  | [] => none
  | c :: t =>
    match schemeSplitL (c :: t) with
    | some rest =>
        let seg := rest.takeWhile notSlash
        if seg.isEmpty then findSchemeHost t else some seg
    | none => findSchemeHost t

/-- First-line domain extraction in `main` (main.go lines 78–88): URL-shaped
inputs go through the unanchored regexp; every other input is passed on
unchanged. -/
def mainDomainOf (firstTarget : String) : String :=
  if occursInL [':', '/', '/'] firstTarget.data then
    match findSchemeHost firstTarget.data with
    | some host => ⟨host⟩
    | none => firstTarget
  else firstTarget

/-- Modelled from the claim wording (spec §4.1): strip at most one
conventional prefix, trying `www.`, `api.`, `app.`, `dev.`, `test.` in
priority order. Defined only to compare against the code's `stripSubsL`. -/
def stripAtMostOneL (l : List Char) : List Char :=
  if startsWithL "www.".data l then l.drop 4
  else if startsWithL "api.".data l then l.drop 4
  else if startsWithL "app.".data l then l.drop 4
  else if startsWithL "dev.".data l then l.drop 4
  else if startsWithL "test.".data l then l.drop 5
  else l

/-- `ExtractDomain` as the claim describes it, with the at-most-one prefix
strip in place of the sequential chain. -/
def extractDomainAtMostOne (input : String) : String :=
  match goHostMatch input with
  | none => input
  | some host =>
    let d := stripAtMostOneL host.data
    match splitOnDotL d with
    | p :: _ :: _ => ⟨p⟩
    | _ => ⟨d⟩

/-! ## Relational store model

Rows of the three tables the ingestion pipeline writes (`programs`,
`targets`, `recon_data`), with the SQLite AUTOINCREMENT surrogate keys
modelled as per-table counters. Only the columns the pipeline reads or
writes are carried; the remaining schema columns keep their defaults and
are never touched by the code under verification. -/

structure ProgramRow where
  id : Nat
  name : String
  scope : String
  deriving Repr, DecidableEq

structure TargetRow where
  id : Nat
  programId : Nat
  target : String
  ttype : String
  source : String
  lastChecked : Nat
  deriving Repr, DecidableEq

structure ReconRow where
  targetId : Nat
  tool : String
  data : String
  context : String
  timestamp : Nat
  deriving Repr, DecidableEq

structure DB where
  programs : List ProgramRow
  targets : List TargetRow
  reconData : List ReconRow
  nextProgramId : Nat
  nextTargetId : Nat
  deriving Repr, DecidableEq

def emptyDB : DB := ⟨[], [], [], 1, 1⟩

/-- `SELECT id FROM targets WHERE target = ? AND program_id = ?` under
`QueryRow` (the first matching row, or `sql.ErrNoRows`). -/
def findTarget (db : DB) (targetURL : String) (programID : Nat) : Option Nat :=
  (db.targets.find? (fun r => r.target == targetURL && r.programId == programID)).map
    (fun r => r.id)

/-- `SELECT id FROM programs WHERE name = ?` under `QueryRow`. -/
def findProgram (db : DB) (name : String) : Option Nat :=
  (db.programs.find? (fun r => r.name == name)).map (fun r => r.id)

/-! ## Store operations

The Go functions return `(value, error)`; they are embedded as
`Except String` computations. A store-level failure (a failed query, or a
failed insert — in particular a uniqueness-constraint race on the insert)
is injected through an explicit `storeFault` flag, applied at the store
operation the call reaches; SQLite rejects a failing statement atomically,
so the database is unchanged on failure. -/

/-- `GetOrCreateTarget` (processors/target_processor.go lines 11–54):
classify the line, look up by (target string, program id), insert with the
computed type, the source label and `last_checked = now` on miss, reuse
the row id on hit. -/
def getOrCreateTargetE (db : DB) (targetURL toolName : String)
    (programID now : Nat) (storeFault : Bool) : Except String (DB × Nat) :=
  match findTarget db targetURL programID with
  | some id =>
      if storeFault then .error "failed to query target" else .ok (db, id)
  | none =>
      if storeFault then .error "failed to create target"
      else
        .ok ({ db with
                targets := db.targets
                  ++ [⟨db.nextTargetId, programID, targetURL,
                      classifyTarget targetURL, toolName, now⟩]
                nextTargetId := db.nextTargetId + 1 }, db.nextTargetId)

/-- `AddReconData` (processors/recon_processor.go lines 10–19): an
unconditional insert of one observation row. -/
def addReconDataE (db : DB) (targetID : Nat) (tool data ctx : String)
    (now : Nat) (storeFault : Bool) : Except String DB :=
  if storeFault then .error "failed to insert recon data"
  else .ok { db with
    reconData := db.reconData ++ [⟨targetID, tool, data, ctx, now⟩] }

/-- `GetOrCreateProgram` (processors/target_processor.go lines 92–123):
derive the organization name with `ExtractDomain`, look it up by name,
insert on miss with scope `*.` ++ the `www.`-stripped domain argument. -/
def getOrCreateProgramE (db : DB) (domain : String) (storeFault : Bool) :
    Except String (DB × Nat) :=
  match findProgram db (extractDomain domain) with
  | some id =>
      if storeFault then .error "failed to query program" else .ok (db, id)
  | none =>
      if storeFault then .error "failed to create program"
      else
        .ok ({ db with
                programs := db.programs
                  ++ [⟨db.nextProgramId, extractDomain domain,
                      "*." ++ trimPreS domain "www."⟩]
                nextProgramId := db.nextProgramId + 1 }, db.nextProgramId)

/-- Fatal handling of a program-step error in `main` (main.go lines 93–96):
`log.Fatalf` aborts the process, so no run state is produced (`none`);
otherwise the run continues with the resolved program. -/
def mainProgramStep (db : DB) (domain : String) (storeFault : Bool) :
    Option (DB × Nat) :=
  match getOrCreateProgramE db domain storeFault with
  | .error _ => none
  | .ok r => some r

/-! ## Reading stdin and the ingestion loop -/

/-- Go `unicode.IsSpace` restricted to the Latin-1 characters it
recognises (the pipeline's inputs are ASCII tool output). -/
def isSpaceChar (c : Char) : Bool :=
  c == ' ' || c == '\t' || c == '\n' || c == '\x0b' || c == '\x0c'
    || c == '\r' || c == '\x85' || c == '\xa0'

/-- `strings.TrimSpace` over the whitespace characters above. -/
def trimSpace (s : String) : String :=
  ⟨((s.data.dropWhile isSpaceChar).reverse.dropWhile isSpaceChar).reverse⟩

/-- The stdin loop of `main` (main.go lines 59–68): trim every line and
keep the non-blank ones, in input order. The first kept line is the one
the organization is derived from. -/
def readTargets (raw : List String) : List String :=
  (raw.map trimSpace).filter (fun l => !(l == ""))

/-- Injected store outcome for one line of the batch: whether the store
fails during `GetOrCreateTarget`, and whether it fails during
`AddReconData`, for the line at that batch position. -/
structure LineFault where
  targetFault : Bool
  reconFault : Bool
  deriving Repr, DecidableEq

/-- A fault oracle under which every store operation succeeds. -/
def noFault : Nat → LineFault := fun _ => ⟨false, false⟩

def lineOk (f : LineFault) : Bool := !f.targetFault && !f.reconFault

/-- One iteration of the per-target loop of `main` (main.go lines 100–114):
resolve-or-create the target, then append the observation; on either
failure log and `continue` (the store state reached so far is kept).
Returns the store state after the line and whether the line fully
succeeded (i.e. whether `processedCount` is incremented for it). -/
def processLine1 (db : DB) (line tool : String) (pid now : Nat)
    (lf : LineFault) : DB × Bool :=
  match getOrCreateTargetE db line tool pid now lf.targetFault with
  | .error _ => (db, false)
  | .ok (db1, tid) =>
    match addReconDataE db1 tid tool line ("Discovered via " ++ tool) now
        lf.reconFault with
    | .error _ => (db1, false)
    | .ok db2 => (db2, true)

/-- The per-target loop of `main` (main.go lines 99–115), iterating
`processLine1` over the batch in input order and accumulating
`processedCount`. `k` is the batch position of the first element of
`lines`, indexing the fault oracle. -/
def processLines (db : DB) (lines : List String) (tool : String)
    (pid now : Nat) (fault : Nat → LineFault) (k : Nat) : DB × Nat :=
  match lines with
  | [] => (db, 0)
  | line :: rest =>
    ((processLines (processLine1 db line tool pid now (fault k)).1 rest tool
        pid now fault (k + 1)).1,
     (processLines (processLine1 db line tool pid now (fault k)).1 rest tool
        pid now fault (k + 1)).2
       + if (processLine1 db line tool pid now (fault k)).2 then 1 else 0)

/-- One fault-free iteration of the per-target loop (the two store writes
for a single line). -/
def ingestLine (db : DB) (line tool : String) (pid now : Nat) : DB :=
  (processLine1 db line tool pid now ⟨false, false⟩).1

/-- Number of target rows recorded for one (raw string, program) pair. -/
def countTargetRows (db : DB) (line : String) (pid : Nat) : Nat :=
  (db.targets.filter (fun r => r.target == line && r.programId == pid)).length

/-- Number of observation rows whose raw data is `line`. -/
def countObs (db : DB) (line : String) : Nat :=
  (db.reconData.filter (fun r => r.data == line)).length

/-- Whether some target row exists for the pair (raw string, program). -/
def hasTargetRow (db : DB) (line : String) (pid : Nat) : Bool :=
  (findTarget db line pid).isSome

/-- Outcome of one invocation: process exit status, final store state, and
the processed/total counts of the summary line. -/
structure RunResult where
  exitCode : Nat
  db : DB
  processed : Nat
  total : Nat
  deriving Repr, DecidableEq

/-- `main` from the point stdin has been read (main.go lines 59–125),
with the store reachable and no fault injected at the program step (a
program-step fault aborts via `log.Fatalf`, modelled by
`mainProgramStep`): exit 1 on an empty batch, before any
program/target/observation write; otherwise derive the program from the
first line, process every line, and exit 0 exactly when at least one line
fully succeeded. -/
def mainRun (db : DB) (raw : List String) (tool : String) (now : Nat)
    (fault : Nat → LineFault) : RunResult :=
  match readTargets raw with
  | [] => ⟨1, db, 0, 0⟩
  | ft :: rest =>
    match getOrCreateProgramE db (mainDomainOf ft) false with
    | .error _ => ⟨1, db, 0, (ft :: rest).length⟩
    | .ok (db1, pid) =>
      let r := processLines db1 (ft :: rest) tool pid now fault 0
      ⟨if r.2 > 0 then 0 else 1, r.1, r.2, (ft :: rest).length⟩

/-- `b` extends `a` by appended rows only: every existing program, target
and observation row of `a` is still present, unmodified and at its
original position; nothing is deleted. -/
def DB.Extends (a b : DB) : Prop :=
  (∃ ps, b.programs = a.programs ++ ps)
  ∧ (∃ ts, b.targets = a.targets ++ ts)
  ∧ (∃ rs, b.reconData = a.reconData ++ rs)

/-- A sample populated store used to instantiate hypotheses of the
frame theorems at concrete inputs. -/
def witnessDB : DB :=
  ⟨[⟨1, "example", "*.example.com"⟩],
   [⟨1, 1, "example.com", "domain", "subfinder", 0⟩], [], 2, 2⟩

/-- The stdin-presence gate of `main` (main.go lines 16–33, with
`HasStdinData` from utils/): with no piped data the process only ensures
the database file and schema exist (`EnsureDBExists`, which never touches
rows — `ensureOk` says whether it succeeds; on failure `log.Fatalf`
aborts) and exits 0; with piped data it runs the ingestion pipeline. -/
def ferriTop (hasStdinData ensureOk : Bool) (db : DB) (raw : List String)
    (tool : String) (now : Nat) (fault : Nat → LineFault) : RunResult :=
  if hasStdinData then mainRun db raw tool now fault
  else if ensureOk then ⟨0, db, 0, 0⟩ else ⟨1, db, 0, 0⟩

end Ferri

namespace Ferri

/-! Bridging lemmas between the hand-rolled Go-string models and the
predicates used in the spec-side definitions. -/

theorem occursInL_singleton (c : Char) (l : List Char) :
    occursInL [c] l = true ↔ c ∈ l := by
  induction l with
  | nil => simp [occursInL]
  | cons b bs ih =>
    simp only [occursInL, startsWithL, Bool.or_eq_true, List.mem_cons]
    constructor
    · rintro (h | h)
      · left
        simp only [Bool.and_eq_true] at h
        exact beq_iff_eq.mp h.1
      · right; exact ih.mp h
    · rintro (rfl | h)
      · left; simp [startsWithL]
      · right; exact ih.mpr h

theorem occursInL_singleton_false (c : Char) (l : List Char) :
    occursInL [c] l = false ↔ c ∉ l := by
  rw [← occursInL_singleton c l]
  constructor
  · intro h hc; rw [h] at hc; exact Bool.false_ne_true hc
  · intro h; cases hb : occursInL [c] l with
    | false => rfl
    | true => exact absurd hb h

theorem classifyTarget_cond_domain (s : String) :
    ((s.data.count '.' == 1 && !occursInL ['/'] s.data
        && !occursInL [':'] s.data) = true)
      ↔ (s.data.count '.' = 1 ∧ '/' ∉ s.data ∧ ':' ∉ s.data) := by
  simp only [Bool.and_eq_true, Bool.not_eq_true', beq_iff_eq,
    occursInL_singleton_false, and_assoc]

theorem classifyTarget_cond_subdomain (s : String) :
    ((decide (s.data.count '.' > 1) && !occursInL ['/'] s.data
        && !occursInL [':'] s.data) = true)
      ↔ (1 < s.data.count '.' ∧ '/' ∉ s.data ∧ ':' ∉ s.data) := by
  simp only [Bool.and_eq_true, Bool.not_eq_true', decide_eq_true_eq,
    occursInL_singleton_false, gt_iff_lt, and_assoc]

/-- C1: `ClassifyTarget` applies the five ordered rules with
first-match-wins precedence: the code classifier agrees pointwise with the
spec-worded ordered rules (one dot, no `/`, no `:` → domain; more than one
dot, no `/`, no `:` → subdomain; else contains `://` → url; else contains
`:` → ip_port; else unknown), and the concrete examples classify as the
spec says; in particular a string containing `://` that fails both
dot-only rules is `url`, not `subdomain`. -/
theorem classifyTarget_ordered_rules :
    (∀ s : String, classifyTarget s = classifyTargetSpec s)
    ∧ classifyTarget "example.com" = "domain"
    ∧ classifyTarget "api.example.com" = "subdomain"
    ∧ classifyTarget "https://example.com/path" = "url"
    ∧ classifyTarget "10.0.0.1:8080" = "ip_port"
    ∧ classifyTarget "randomtoken" = "unknown"
    ∧ classifyTarget "https://a.b.com" = "url" := by
  refine ⟨fun s => ?_, rfl, rfl, rfl, rfl, rfl, rfl⟩
  unfold classifyTarget classifyTargetSpec
  exact if_congr (classifyTarget_cond_domain s) rfl
    (if_congr (classifyTarget_cond_subdomain s) rfl
      (if_congr Iff.rfl rfl
        (if_congr (occursInL_singleton ':' s.data) rfl rfl)))

/-- C4 counterexample: on the host `www.api.example.com` the code removes
two conventional prefixes (`www.` and then `api.`) before the dot-split,
yielding organization name `example`, whereas removing at most one prefix
as the claim states would leave `api.example.com` and yield `api`. -/
theorem stripSubs_removes_two_cex :
    stripSubsL "www.api.example.com".data = "example.com".data
    ∧ stripAtMostOneL "www.api.example.com".data = "api.example.com".data
    ∧ extractDomain "www.api.example.com" = "example"
    ∧ extractDomainAtMostOne "www.api.example.com" = "api"
    ∧ extractDomain "www.api.example.com"
        ≠ extractDomainAtMostOne "www.api.example.com" :=
  ⟨rfl, rfl, rfl, rfl, by decide⟩

/-- C4 (amended): organization-name derivation applies
`strings.TrimPrefix` once for each of `www.`, `api.`, `app.`, `dev.`,
`test.`, sequentially in that order, each call removing at most one copy
of its own prefix — so successive calls can strip several different
prefixes from one host: any host of the form `www.api.` ++ rest where rest
does not itself begin with `app.`, `dev.` or `test.` loses both `www.`
and `api.` before the dot-split. -/
theorem stripSubs_sequential (rest : List Char)
    (h1 : startsWithL "app.".data rest = false)
    (h2 : startsWithL "dev.".data rest = false)
    (h3 : startsWithL "test.".data rest = false) :
    stripSubsL ('w' :: 'w' :: 'w' :: '.' :: 'a' :: 'p' :: 'i' :: '.' :: rest)
      = rest := by
  have e₁ : trimPreL "www.".data
      ('w' :: 'w' :: 'w' :: '.' :: 'a' :: 'p' :: 'i' :: '.' :: rest)
      = ('a' :: 'p' :: 'i' :: '.' :: rest) := by
    have hc : startsWithL "www.".data
        ('w' :: 'w' :: 'w' :: '.' :: 'a' :: 'p' :: 'i' :: '.' :: rest) = true := by
      rw [show "www.".data = ['w', 'w', 'w', '.'] from rfl]
      simp [startsWithL]
    simp [trimPreL, hc]
  have e₂ : trimPreL "api.".data ('a' :: 'p' :: 'i' :: '.' :: rest) = rest := by
    have hc : startsWithL "api.".data ('a' :: 'p' :: 'i' :: '.' :: rest) = true := by
      rw [show "api.".data = ['a', 'p', 'i', '.'] from rfl]
      simp [startsWithL]
    simp [trimPreL, hc]
  have e₃ : trimPreL "app.".data rest = rest := by
    simp [trimPreL, h1]
  have e₄ : trimPreL "dev.".data rest = rest := by
    simp [trimPreL, h2]
  have e₅ : trimPreL "test.".data rest = rest := by
    simp [trimPreL, h3]
  unfold stripSubsL
  rw [e₁, e₂, e₃, e₄, e₅]

/-- Witness for `stripSubs_sequential` at rest = `example.com`. -/
theorem stripSubs_sequential_witness :
    stripSubsL "www.api.example.com".data = "example.com".data := by
  have h := stripSubs_sequential "example.com".data (by decide) (by decide)
    (by decide)
  exact h

/-- C5 counterexample: the organization name derived from the first input
line `https://WWW.Example.com/x` (main.go extracts the host, then
`ExtractDomain` is applied to it) is `WWW`, not `example` as the claim
states. -/
theorem extractDomain_uppercase_cex :
    extractDomain (mainDomainOf "https://WWW.Example.com/x") ≠ "example"
    ∧ extractDomain (mainDomainOf "https://WWW.Example.com/x") = "WWW" :=
  ⟨by decide, rfl⟩

/-! ## Store-operation lemmas -/

theorem getOrCreateTargetE_fault (db : DB) (line tool : String) (pid now : Nat) :
    ∃ e, getOrCreateTargetE db line tool pid now true = .error e := by
  unfold getOrCreateTargetE
  cases findTarget db line pid <;> simp

theorem getOrCreateTargetE_ok (db : DB) (line tool : String) (pid now : Nat) :
    ∃ r, getOrCreateTargetE db line tool pid now false = .ok r := by
  unfold getOrCreateTargetE
  cases findTarget db line pid <;> simp

theorem getOrCreateTargetE_found (db : DB) (line tool : String) (pid now id : Nat)
    (h : findTarget db line pid = some id) :
    getOrCreateTargetE db line tool pid now false = .ok (db, id) := by
  simp [getOrCreateTargetE, h]

theorem getOrCreateTargetE_miss (db : DB) (line tool : String) (pid now : Nat)
    (h : findTarget db line pid = none) :
    getOrCreateTargetE db line tool pid now false
      = .ok ({ db with
              targets := db.targets
                ++ [⟨db.nextTargetId, pid, line, classifyTarget line, tool, now⟩]
              nextTargetId := db.nextTargetId + 1 }, db.nextTargetId) := by
  simp [getOrCreateTargetE, h]

theorem addReconDataE_ok (db : DB) (tid : Nat) (tool data ctx : String) (now : Nat) :
    addReconDataE db tid tool data ctx now false
      = .ok { db with reconData := db.reconData ++ [⟨tid, tool, data, ctx, now⟩] } :=
  rfl

theorem getOrCreateProgramE_ok (db : DB) (domain : String) :
    ∃ r, getOrCreateProgramE db domain false = .ok r := by
  unfold getOrCreateProgramE
  cases findProgram db (extractDomain domain) <;> simp

theorem getOrCreateProgramE_found (db : DB) (domain : String) (id : Nat)
    (h : findProgram db (extractDomain domain) = some id) :
    getOrCreateProgramE db domain false = .ok (db, id) := by
  simp [getOrCreateProgramE, h]

theorem getOrCreateTargetE_frame (db db' : DB) (line tool : String)
    (pid now tid : Nat) (f : Bool)
    (h : getOrCreateTargetE db line tool pid now f = .ok (db', tid)) :
    db'.programs = db.programs ∧ db'.reconData = db.reconData
    ∧ ∃ ts, db'.targets = db.targets ++ ts := by
  unfold getOrCreateTargetE at h
  cases hf : findTarget db line pid <;> rw [hf] at h <;> cases f <;>
      simp at h
  · obtain ⟨h1, _⟩ := h
    exact ⟨by rw [← h1], by rw [← h1], [_], by rw [← h1]⟩
  · obtain ⟨h1, _⟩ := h
    exact ⟨by rw [← h1], by rw [← h1], [], by rw [← h1]; simp⟩

theorem getOrCreateProgramE_frame (db db' : DB) (domain : String) (pid : Nat)
    (h : getOrCreateProgramE db domain false = .ok (db', pid)) :
    db'.targets = db.targets ∧ db'.reconData = db.reconData
    ∧ (∃ ps, db'.programs = db.programs ++ ps)
    ∧ findProgram db' (extractDomain domain) = some pid := by
  unfold getOrCreateProgramE at h
  cases hf : findProgram db (extractDomain domain) <;> rw [hf] at h <;>
      simp at h
  · obtain ⟨h1, h2⟩ := h
    refine ⟨by rw [← h1], by rw [← h1], ⟨[_], by rw [← h1]⟩, ?_⟩
    rw [← h1, ← h2]
    simp only [findProgram, List.find?_append]
    have hn : (db.programs.find? (fun r => r.name == extractDomain domain)) = none := by
      simpa [findProgram] using hf
    simp [hn, List.find?]
  · obtain ⟨h1, h2⟩ := h
    exact ⟨by rw [← h1], by rw [← h1], ⟨[], by rw [← h1]; simp⟩,
      by rw [← h1, ← h2]; exact hf⟩

theorem DB.Extends.rfl (a : DB) : DB.Extends a a :=
  ⟨⟨[], by simp⟩, ⟨[], by simp⟩, ⟨[], by simp⟩⟩

theorem DB.Extends.trans {a b c : DB} (h1 : DB.Extends a b)
    (h2 : DB.Extends b c) : DB.Extends a c := by
  obtain ⟨⟨ps1, hp1⟩, ⟨ts1, ht1⟩, ⟨rs1, hr1⟩⟩ := h1
  obtain ⟨⟨ps2, hp2⟩, ⟨ts2, ht2⟩, ⟨rs2, hr2⟩⟩ := h2
  exact ⟨⟨ps1 ++ ps2, by rw [hp2, hp1, List.append_assoc]⟩,
    ⟨ts1 ++ ts2, by rw [ht2, ht1, List.append_assoc]⟩,
    ⟨rs1 ++ rs2, by rw [hr2, hr1, List.append_assoc]⟩⟩

/-- One loop iteration only appends rows (and never touches programs). -/
theorem processLine1_frame (db : DB) (line tool : String) (pid now : Nat)
    (lf : LineFault) :
    (processLine1 db line tool pid now lf).1.programs = db.programs
    ∧ (∃ ts, (processLine1 db line tool pid now lf).1.targets
        = db.targets ++ ts)
    ∧ ∃ rs, (processLine1 db line tool pid now lf).1.reconData
        = db.reconData ++ rs := by
  cases hT : getOrCreateTargetE db line tool pid now lf.targetFault with
  | error e =>
    refine ⟨?_, ⟨[], ?_⟩, ⟨[], ?_⟩⟩ <;> simp [processLine1, hT]
  | ok r =>
    obtain ⟨db1, tid⟩ := r
    obtain ⟨hTp, hTr, ts1, hTt⟩ := getOrCreateTargetE_frame db db1 line tool
      pid now tid _ hT
    cases hR : addReconDataE db1 tid tool line ("Discovered via " ++ tool) now
        lf.reconFault with
    | error e =>
      simp only [processLine1, hT, hR]
      exact ⟨hTp, ⟨ts1, hTt⟩, ⟨[], by simp [hTr]⟩⟩
    | ok db2 =>
      have hdb2 : db2 = { db1 with reconData := db1.reconData
          ++ [⟨tid, tool, line, "Discovered via " ++ tool, now⟩] } := by
        cases hRF : lf.reconFault <;> rw [hRF] at hR <;>
          simp [addReconDataE] at hR
        exact hR.symm
      simp only [processLine1, hT, hR]
      subst hdb2
      exact ⟨hTp, ⟨ts1, hTt⟩,
        ⟨[⟨tid, tool, line, "Discovered via " ++ tool, now⟩], by simp [hTr]⟩⟩

/-- A line is counted as processed exactly when neither of its two store
operations is hit by a fault. -/
theorem processLine1_ok_iff (db : DB) (line tool : String) (pid now : Nat)
    (lf : LineFault) :
    (processLine1 db line tool pid now lf).2 = lineOk lf := by
  cases hTF : lf.targetFault with
  | true =>
    obtain ⟨e, he⟩ := getOrCreateTargetE_fault db line tool pid now
    simp only [processLine1, hTF, he]
    simp [lineOk, hTF]
  | false =>
    obtain ⟨⟨db1, tid⟩, hok⟩ := getOrCreateTargetE_ok db line tool pid now
    cases hRF : lf.reconFault with
    | true =>
      simp only [processLine1, hTF, hok, hRF,
        show addReconDataE db1 tid tool line ("Discovered via " ++ tool) now
          true = .error "failed to insert recon data" from rfl]
      simp [lineOk, hTF, hRF]
    | false =>
      simp only [processLine1, hTF, hok, hRF,
        addReconDataE_ok db1 tid tool line ("Discovered via " ++ tool) now]
      simp [lineOk, hTF, hRF]

/-- The per-target loop only appends rows (and never touches programs). -/
theorem processLines_frame (lines : List String) (db : DB) (tool : String)
    (pid now : Nat) (fault : Nat → LineFault) (k : Nat) :
    (processLines db lines tool pid now fault k).1.programs = db.programs
    ∧ (∃ ts, (processLines db lines tool pid now fault k).1.targets
        = db.targets ++ ts)
    ∧ ∃ rs, (processLines db lines tool pid now fault k).1.reconData
        = db.reconData ++ rs := by
  induction lines generalizing db k with
  | nil => exact ⟨rfl, ⟨[], by simp [processLines]⟩, ⟨[], by simp [processLines]⟩⟩
  | cons line rest ih =>
    obtain ⟨h1p, ⟨ts1, h1t⟩, rs1, h1r⟩ := processLine1_frame db line tool pid
      now (fault k)
    obtain ⟨hp, ⟨ts2, ht⟩, rs2, hr⟩ :=
      ih (processLine1 db line tool pid now (fault k)).1 (k + 1)
    refine ⟨?_, ⟨ts1 ++ ts2, ?_⟩, ⟨rs1 ++ rs2, ?_⟩⟩ <;>
      simp only [processLines]
    · rw [hp, h1p]
    · rw [ht, h1t, List.append_assoc]
    · rw [hr, h1r, List.append_assoc]

/-- `processedCount` counts exactly the batch positions whose two store
writes both succeed; a failed line contributes nothing and has no effect
on any other line's contribution. -/
theorem processLines_count (lines : List String) (db : DB) (tool : String)
    (pid now : Nat) (fault : Nat → LineFault) (k : Nat) :
    (processLines db lines tool pid now fault k).2
      = (List.range lines.length).countP (fun j => lineOk (fault (k + j))) := by
  induction lines generalizing db k with
  | nil => simp [processLines]
  | cons line rest ih =>
    have hrange : (List.range (rest.length + 1)).countP
          (fun j => lineOk (fault (k + j)))
        = ((List.range rest.length).countP (fun j => lineOk (fault (k + 1 + j))))
          + if lineOk (fault k) then 1 else 0 := by
      rw [List.range_succ_eq_map, List.countP_cons, List.countP_map]
      have he : ((fun j => lineOk (fault (k + j))) ∘ Nat.succ)
          = (fun j => lineOk (fault (k + 1 + j))) := by
        funext j
        have h : k + (j + 1) = k + 1 + j := by omega
        simp [Function.comp, Nat.succ_eq_add_one, h]
      rw [he]
      simp
    simp only [processLines, List.length_cons, hrange,
      ih (processLine1 db line tool pid now (fault k)).1 (k + 1),
      processLine1_ok_iff]

theorem findProgram_congr (a b : DB) (n : String)
    (h : a.programs = b.programs) : findProgram a n = findProgram b n := by
  simp [findProgram, h]

theorem hasTargetRow_mono (a b : DB) (line : String) (pid : Nat)
    (hts : ∃ ts, b.targets = a.targets ++ ts)
    (h : hasTargetRow a line pid = true) : hasTargetRow b line pid = true := by
  obtain ⟨ts, hb⟩ := hts
  unfold hasTargetRow findTarget at h ⊢
  cases hf : a.targets.find?
      (fun r => r.target == line && r.programId == pid) with
  | none => rw [hf] at h; simp at h
  | some r => rw [hb, List.find?_append, hf, Option.or_some]; rfl

/-- After a fault-free iteration for `line`, a target row for
(`line`, `pid`) exists. -/
theorem processLine1_establishes (db : DB) (line tool : String)
    (pid now : Nat) :
    hasTargetRow (processLine1 db line tool pid now ⟨false, false⟩).1
      line pid = true := by
  cases hf : findTarget db line pid with
  | some id =>
    simp only [processLine1, getOrCreateTargetE_found db line tool pid now id hf,
      addReconDataE_ok]
    unfold findTarget at hf
    cases hq : db.targets.find?
        (fun r => r.target == line && r.programId == pid) with
    | none => rw [hq] at hf; simp at hf
    | some r =>
      have hmem := List.mem_of_find?_eq_some hq
      have hpr := List.find?_some hq
      simp only [Bool.and_eq_true, beq_iff_eq] at hpr
      simp [hasTargetRow, findTarget]
      exact ⟨r, hmem, hpr.1, hpr.2⟩
  | none =>
    have hnone : db.targets.find?
        (fun r => r.target == line && r.programId == pid) = none := by
      unfold findTarget at hf
      exact Option.map_eq_none'.mp hf
    simp only [processLine1, getOrCreateTargetE_miss db line tool pid now hf,
      addReconDataE_ok]
    simp [hasTargetRow, findTarget, List.find?_append, hnone, List.find?]

/-- After the fault-free loop, every line of the batch has a target row. -/
theorem processLines_establishes (lines : List String) (db : DB)
    (tool : String) (pid now k : Nat) :
    ∀ l ∈ lines,
      hasTargetRow (processLines db lines tool pid now noFault k).1 l pid
        = true := by
  induction lines generalizing db k with
  | nil => intro l hl; cases hl
  | cons line rest ih =>
    intro l hl
    rcases List.mem_cons.mp hl with rfl | hl'
    · have h1 := processLine1_establishes db l tool pid now
      have hfr := processLines_frame rest
        (processLine1 db l tool pid now (noFault k)).1 tool pid now
        noFault (k + 1)
      exact hasTargetRow_mono _ _ _ _ hfr.2.1 h1
    · exact ih (processLine1 db line tool pid now (noFault k)).1 (k + 1) l hl'

/-- When every line of the batch already has its target row, a fault-free
re-run leaves programs and targets untouched and appends exactly one
observation per line, counting every line as processed. -/
theorem processLines_stable (lines : List String) (db : DB) (tool : String)
    (pid now k : Nat)
    (h : ∀ l ∈ lines, hasTargetRow db l pid = true) :
    (processLines db lines tool pid now noFault k).1.programs = db.programs
    ∧ (processLines db lines tool pid now noFault k).1.targets = db.targets
    ∧ (processLines db lines tool pid now noFault k).1.reconData.length
        = db.reconData.length + lines.length
    ∧ (processLines db lines tool pid now noFault k).2 = lines.length := by
  induction lines generalizing db k with
  | nil => simp [processLines]
  | cons line rest ih =>
    have hline := h line (List.mem_cons_self line rest)
    obtain ⟨id, hid⟩ : ∃ id, findTarget db line pid = some id := by
      unfold hasTargetRow at hline
      cases hft : findTarget db line pid with
      | none => rw [hft] at hline; simp at hline
      | some id => exact ⟨id, rfl⟩
    have hstep : processLine1 db line tool pid now (noFault k)
        = ({ db with reconData := db.reconData
            ++ [⟨id, tool, line, "Discovered via " ++ tool, now⟩] }, true) := by
      simp [processLine1, getOrCreateTargetE_found db line tool pid now id hid,
        addReconDataE_ok, noFault]
    have h' : ∀ l ∈ rest,
        hasTargetRow { db with reconData := db.reconData
            ++ [⟨id, tool, line, "Discovered via " ++ tool, now⟩] } l pid
          = true := by
      intro l hl
      have hh := h l (List.mem_cons_of_mem _ hl)
      simpa [hasTargetRow, findTarget] using hh
    obtain ⟨hp, ht, hr, hc⟩ := ih _ (k + 1) h'
    simp only [processLines, hstep]
    refine ⟨hp, ht, ?_, ?_⟩
    · rw [hr]; simp [List.length_append]; omega
    · rw [hc]; simp

/-- C5 (amended): on `https://WWW.Example.com/x` the scheme and path are
stripped case-insensitively, leaving host `WWW.Example.com`, but the
`www.` strip is the case-sensitive `strings.TrimPrefix`, which does not
match `WWW.`, and no lowercasing is ever applied — so the dot-split
returns the first label verbatim and the organization name is `WWW`.
Even a lowercase `www.` host keeps the original case of the next label
(`https://www.Example.com/x` yields `Example`, not `example`). -/
theorem extractDomain_uppercase_host :
    mainDomainOf "https://WWW.Example.com/x" = "WWW.Example.com"
    ∧ extractDomain "WWW.Example.com" = "WWW"
    ∧ extractDomain "https://WWW.Example.com/x" = "WWW"
    ∧ extractDomain "https://www.Example.com/x" = "Example" :=
  ⟨rfl, rfl, rfl, rfl⟩

/-- C7: per-line failures are contained — `processedCount` equals the
number of batch positions whose own two store writes both succeed, so a
line is counted only on full success of both steps and a failing line
never prevents any other line from being processed; consequently
`processedCount ≤ totalCount`, and `totalCount` is exactly the number of
non-blank trimmed input lines. -/
theorem per_line_failure_containment :
    (∀ (db : DB) (lines : List String) (tool : String) (pid now : Nat)
        (fault : Nat → LineFault),
      (processLines db lines tool pid now fault 0).2
        = (List.range lines.length).countP (fun j => lineOk (fault j))
      ∧ (processLines db lines tool pid now fault 0).2 ≤ lines.length)
    ∧ ∀ raw : List String,
        (readTargets raw).length
          = raw.countP (fun l => !(trimSpace l == "")) := by
  constructor
  · intro db lines tool pid now fault
    have h := processLines_count lines db tool pid now fault 0
    simp only [Nat.zero_add] at h
    refine ⟨h, ?_⟩
    rw [h]
    calc (List.range lines.length).countP (fun j => lineOk (fault j))
        ≤ (List.range lines.length).length := List.countP_le_length _
      _ = lines.length := List.length_range _
  · intro raw
    rw [readTargets, ← List.countP_eq_length_filter, List.countP_map]
    rfl

/-- C9: with the store reachable and the program step fault-free, the
process exit status is non-zero exactly when the batch has no non-blank
line (EmptyInput — the run then stops before any program, target or
observation write, leaving the store untouched) or when every line fails
(AllTargetsFailed); partial success exits zero, reported through the
processed/total counts. -/
theorem exit_status_characterization :
    ∀ (db : DB) (raw : List String) (tool : String) (now : Nat)
      (fault : Nat → LineFault),
      ((mainRun db raw tool now fault).exitCode ≠ 0
        ↔ readTargets raw = []
          ∨ ∀ j < (readTargets raw).length, lineOk (fault j) = false)
      ∧ (readTargets raw = [] → (mainRun db raw tool now fault).db = db) := by
  intro db raw tool now fault
  cases hr : readTargets raw with
  | nil =>
    constructor
    · simp [mainRun, hr]
    · intro _; simp [mainRun, hr]
  | cons ft rest =>
    obtain ⟨⟨db1, pid⟩, hok⟩ := getOrCreateProgramE_ok db (mainDomainOf ft)
    have hc := processLines_count (ft :: rest) db1 tool pid now fault 0
    simp only [Nat.zero_add] at hc
    constructor
    · simp only [mainRun, hr, hok]
      rw [hc]
      constructor
      · intro hne
        right
        simpa using hne
      · rintro (habs | hall)
        · simp at habs
        · simpa using hall
    · intro h
      exact absurd h (by simp)

/-- C10: when standard input is not piped (`HasStdinData` reports a
character device), the process ingests nothing: it only ensures the
database file and schema exist (no row of any table is added, removed or
modified), prints usage hints, and exits with status 0 even though zero
input lines were supplied. -/
theorem no_stdin_exits_zero :
    ∀ (db : DB) (raw : List String) (tool : String) (now : Nat)
      (fault : Nat → LineFault),
      ferriTop false true db raw tool now fault = ⟨0, db, 0, 0⟩ :=
  fun _ _ _ _ _ => rfl

/-- C3 counterexample: a store failure at the program insert (in
particular the uniqueness-constraint race) is surfaced to the caller as
an error and `main` treats it as fatal (`log.Fatalf`); no re-resolution
by name happens, contradicting the claim that such a violation is
recovered locally and never surfaced. -/
theorem conflict_error_surfaced_cex :
    getOrCreateProgramE emptyDB "example.com" true
      = .error "failed to create program"
    ∧ mainProgramStep emptyDB "example.com" true = none :=
  ⟨rfl, rfl⟩

/-- C3 (amended): a uniqueness violation (or any store failure) on insert
during resolve-or-create is returned to the caller as an error — `main`
aborts fatally on a program-step error, and the per-line loop merely
skips the line on a target-step error; neither path performs a second
lookup by the natural key. -/
theorem conflict_error_propagates (db : DB) (domain line tool : String)
    (pid now : Nat)
    (hp : findProgram db (extractDomain domain) = none)
    (ht : findTarget db line pid = none) :
    getOrCreateProgramE db domain true = .error "failed to create program"
    ∧ mainProgramStep db domain true = none
    ∧ getOrCreateTargetE db line tool pid now true
        = .error "failed to create target"
    ∧ processLine1 db line tool pid now ⟨true, false⟩ = (db, false) := by
  have h1 : getOrCreateProgramE db domain true
      = .error "failed to create program" := by
    simp [getOrCreateProgramE, hp]
  have h3 : getOrCreateTargetE db line tool pid now true
      = .error "failed to create target" := by
    simp [getOrCreateTargetE, ht]
  refine ⟨h1, ?_, h3, ?_⟩
  · simp [mainProgramStep, h1]
  · simp [processLine1, h3]

/-- Witness for `conflict_error_propagates` at an empty store. -/
theorem conflict_error_propagates_witness :
    getOrCreateProgramE emptyDB "api.example.com" true
      = .error "failed to create program"
    ∧ mainProgramStep emptyDB "api.example.com" true = none
    ∧ getOrCreateTargetE emptyDB "x.example.com" "tool" 1 0 true
        = .error "failed to create target"
    ∧ processLine1 emptyDB "x.example.com" "tool" 1 0 ⟨true, false⟩
        = (emptyDB, false) :=
  conflict_error_propagates emptyDB "api.example.com" "x.example.com" "tool"
    1 0 rfl rfl

/-- C6: a newly created program's scope pattern is `*.` concatenated with
the program-creation input stripped of a leading `www.` only — the other
conventional prefixes (`api.`, `app.`, `dev.`, `test.`) are kept in the
scope even though they are stripped for the organization name; first
input `api.example.com` yields a program named `example` with scope
`*.api.example.com`. -/
theorem program_scope_strips_www_only (db : DB) (domain : String)
    (h : findProgram db (extractDomain domain) = none) :
    getOrCreateProgramE db domain false
      = .ok ({ db with
              programs := db.programs
                ++ [⟨db.nextProgramId, extractDomain domain,
                    "*." ++ trimPreS domain "www."⟩]
              nextProgramId := db.nextProgramId + 1 }, db.nextProgramId)
    ∧ extractDomain "api.example.com" = "example"
    ∧ trimPreS "api.example.com" "www." = "api.example.com"
    ∧ getOrCreateProgramE emptyDB "api.example.com" false
      = .ok ({ emptyDB with
              programs := [⟨1, "example", "*.api.example.com"⟩]
              nextProgramId := 2 }, 1) := by
  refine ⟨?_, rfl, rfl, rfl⟩
  simp [getOrCreateProgramE, h]

/-- Witness for `program_scope_strips_www_only` at an empty store. -/
theorem program_scope_strips_www_only_witness :
    getOrCreateProgramE emptyDB "api.example.com" false
      = .ok ({ emptyDB with
              programs := [⟨1, "example", "*.api.example.com"⟩]
              nextProgramId := 2 }, 1) :=
  (program_scope_strips_www_only emptyDB "api.example.com" rfl).2.2.2

/-- A fault-free iteration on a line that already has its target row only
appends one observation. -/
theorem ingestLine_found (db : DB) (line tool : String) (pid now tid : Nat)
    (h : findTarget db line pid = some tid) :
    ingestLine db line tool pid now
      = { db with reconData := db.reconData
          ++ [⟨tid, tool, line, "Discovered via " ++ tool, now⟩] } := by
  simp only [ingestLine, processLine1,
    getOrCreateTargetE_found db line tool pid now tid h, addReconDataE_ok]

/-- A fault-free iteration on an unseen line inserts one target row and
one observation. -/
theorem ingestLine_miss (db : DB) (line tool : String) (pid now : Nat)
    (h : findTarget db line pid = none) :
    ingestLine db line tool pid now
      = { db with
          targets := db.targets
            ++ [⟨db.nextTargetId, pid, line, classifyTarget line, tool, now⟩]
          reconData := db.reconData
            ++ [⟨db.nextTargetId, tool, line, "Discovered via " ++ tool, now⟩]
          nextTargetId := db.nextTargetId + 1 } := by
  simp only [ingestLine, processLine1,
    getOrCreateTargetE_miss db line tool pid now h, addReconDataE_ok]

/-- C2: ingestion is idempotent on targets but append-only on
observations — ingesting the same line twice under the same program
yields exactly one target row for that line but two observation rows; and
re-running a whole batch creates zero new program rows, zero new target
rows, and exactly one additional observation row per non-blank line. -/
theorem ingest_idempotent :
    (∀ (db : DB) (line tool : String) (pid now now2 : Nat),
      countTargetRows db line pid = 0 →
        countTargetRows
            (ingestLine (ingestLine db line tool pid now) line tool pid now2)
            line pid = 1
        ∧ countObs
            (ingestLine (ingestLine db line tool pid now) line tool pid now2)
            line
          = countObs db line + 2)
    ∧ ∀ (db : DB) (raw : List String) (tool : String) (now now2 : Nat),
        (mainRun (mainRun db raw tool now noFault).db raw tool now2
            noFault).db.programs
          = (mainRun db raw tool now noFault).db.programs
        ∧ (mainRun (mainRun db raw tool now noFault).db raw tool now2
            noFault).db.targets
          = (mainRun db raw tool now noFault).db.targets
        ∧ (mainRun (mainRun db raw tool now noFault).db raw tool now2
            noFault).db.reconData.length
          = (mainRun db raw tool now noFault).db.reconData.length
            + (readTargets raw).length := by
  constructor
  · intro db line tool pid now now2 h
    have hq : db.targets.filter
        (fun r => r.target == line && r.programId == pid) = [] := by
      unfold countTargetRows at h
      exact List.length_eq_zero.mp h
    have hnone : db.targets.find?
        (fun r => r.target == line && r.programId == pid) = none := by
      apply List.find?_eq_none.mpr
      intro x hx
      exact List.filter_eq_nil_iff.mp hq x hx
    have hfe : findTarget db line pid = none := by
      unfold findTarget
      rw [hnone]
      rfl
    have h1 := ingestLine_miss db line tool pid now hfe
    have hf2 : findTarget (ingestLine db line tool pid now) line pid
        = some db.nextTargetId := by
      rw [h1]
      unfold findTarget
      simp [List.find?_append, hnone, List.find?]
    have h2 := ingestLine_found (ingestLine db line tool pid now) line tool
      pid now2 db.nextTargetId hf2
    rw [h2, h1]
    constructor
    · simp [countTargetRows, List.filter_append, hq]
    · simp [countObs, List.filter_append]
  · intro db raw tool now now2
    cases hr : readTargets raw with
    | nil => simp [mainRun, hr]
    | cons ft rest =>
      obtain ⟨⟨db1, pid⟩, hok⟩ := getOrCreateProgramE_ok db (mainDomainOf ft)
      obtain ⟨hPt, hPr, ⟨ps, hPp⟩, hPfind⟩ :=
        getOrCreateProgramE_frame db db1 _ pid hok
      have hfind2 : findProgram
          (processLines db1 (ft :: rest) tool pid now noFault 0).1
          (extractDomain (mainDomainOf ft)) = some pid := by
        rw [findProgram_congr
          (processLines db1 (ft :: rest) tool pid now noFault 0).1 db1 _
          (processLines_frame (ft :: rest) db1 tool pid now noFault 0).1]
        exact hPfind
      have hok2 := getOrCreateProgramE_found
        (processLines db1 (ft :: rest) tool pid now noFault 0).1
        (mainDomainOf ft) pid hfind2
      have hpres := processLines_establishes (ft :: rest) db1 tool pid now 0
      obtain ⟨hsp, hst, hsr, _⟩ := processLines_stable (ft :: rest)
        (processLines db1 (ft :: rest) tool pid now noFault 0).1 tool pid
        now2 0 hpres
      simp only [mainRun, hr, hok, hok2]
      exact ⟨hsp, hst, by rw [hsr]⟩

/-- Witness for the target-level part of `ingest_idempotent`, starting
from the empty store. -/
theorem ingest_idempotent_witness :
    countTargetRows
        (ingestLine (ingestLine emptyDB "example.com" "tool" 1 3)
          "example.com" "tool" 1 4) "example.com" 1 = 1
    ∧ countObs
        (ingestLine (ingestLine emptyDB "example.com" "tool" 1 3)
          "example.com" "tool" 1 4) "example.com"
      = countObs emptyDB "example.com" + 2 :=
  ingest_idempotent.1 emptyDB "example.com" "tool" 1 3 4 rfl

/-- C8: ingestion never mutates existing rows — on a repeat sighting of a
target the whole store is returned unchanged and only the row id is
reused (type, source, last_checked are not refreshed); an existing
program is likewise returned untouched; an observation insert writes to
no other table; and an entire run only ever appends rows, never updating
or deleting an existing program, target or observation. -/
theorem ingestion_never_mutates :
    (∀ (db : DB) (line tool : String) (pid now id : Nat),
        findTarget db line pid = some id →
          getOrCreateTargetE db line tool pid now false = .ok (db, id))
    ∧ (∀ (db : DB) (domain : String) (id : Nat),
        findProgram db (extractDomain domain) = some id →
          getOrCreateProgramE db domain false = .ok (db, id))
    ∧ (∀ (db : DB) (tid : Nat) (tool data ctx : String) (now : Nat),
        addReconDataE db tid tool data ctx now false
          = .ok { db with
              reconData := db.reconData ++ [⟨tid, tool, data, ctx, now⟩] })
    ∧ ∀ (db : DB) (raw : List String) (tool : String) (now : Nat)
        (fault : Nat → LineFault),
        DB.Extends db (mainRun db raw tool now fault).db := by
  refine ⟨getOrCreateTargetE_found, getOrCreateProgramE_found,
    addReconDataE_ok, ?_⟩
  intro db raw tool now fault
  cases hr : readTargets raw with
  | nil =>
    simp only [mainRun, hr]
    exact DB.Extends.rfl db
  | cons ft rest =>
    obtain ⟨⟨db1, pid⟩, hok⟩ := getOrCreateProgramE_ok db (mainDomainOf ft)
    obtain ⟨hPt, hPr, ⟨ps, hPp⟩, _⟩ := getOrCreateProgramE_frame db db1 _ pid hok
    obtain ⟨hp, ⟨ts, ht⟩, rs, hrc⟩ :=
      processLines_frame (ft :: rest) db1 tool pid now fault 0
    simp only [mainRun, hr, hok]
    exact DB.Extends.trans
      ⟨⟨ps, hPp⟩, ⟨[], by simp [hPt]⟩, ⟨[], by simp [hPr]⟩⟩
      ⟨⟨[], by simp [hp]⟩, ⟨ts, ht⟩, ⟨rs, hrc⟩⟩

/-- Witness for the reuse parts of `ingestion_never_mutates` at a
populated store. -/
theorem ingestion_never_mutates_witness :
    getOrCreateTargetE witnessDB "example.com" "subfinder" 1 7 false
      = .ok (witnessDB, 1)
    ∧ getOrCreateProgramE witnessDB "example.com" false = .ok (witnessDB, 1) :=
  ⟨ingestion_never_mutates.1 witnessDB "example.com" "subfinder" 1 7 1 rfl,
   ingestion_never_mutates.2.1 witnessDB "example.com" 1 rfl⟩

end Ferri
